import Mathlib

/-!
# Verification of the zeabur file-server (`src/index.js`)

A shallow embedding of the upload gateway in `src/index.js`:
the filename sanitizer, the Node `path` helpers it calls
(`path.extname`, `path.basename`), the MIME allow-list, the multer
disk-storage filename callback, the bearer-token middleware, the
`/upload` and `DELETE /files/:name` handlers and the retention sweeper.

JavaScript strings are modelled as Lean `String` (a list of characters);
the JavaScript `||` on strings (where only `""` is falsy in the uses
appearing here) is modelled by `jsOr`.  Nondeterministic inputs of the
code — the `uuid()` stream, the wall clock, the directory listing and
the outcome of `fs.unlink` — are passed as explicit parameters.
-/

namespace FileServer

/-- JavaScript `a || b` for strings: `""` is the only falsy string. -/
def jsOr (a b : String) : String := if a = "" then b else a

/-- The character class kept by `sanitizeBaseName`'s regex
`[^\w\-\.]` (JavaScript `\w` is ASCII `[A-Za-z0-9_]`). -/
def keepChar (c : Char) : Bool :=
  c.isAlphanum || c == '_' || c == '-' || c == '.'

/-- One character of `String.prototype.replace` with the class above:
kept characters unchanged, all others become an underscore. -/
def sanitizeChar (c : Char) : Char := if keepChar c then c else '_'

/-- `sanitizeBaseName` from `src/index.js` line 47–50:
`(name || "").replace(/[^\w\-\.]/g, "_")`.  The regex is global over
single characters, i.e. a character-wise map. -/
def sanitizeBaseName (name : String) : String :=
  ⟨name.data.map sanitizeChar⟩

/-! ## Node `path` helpers (POSIX) used by the code -/

/-- Drop trailing `/` characters (Node's path functions ignore them). -/
def stripTrailingSlashes (l : List Char) : List Char :=
  (l.reverse.dropWhile (fun c => c == '/')).reverse

/-- The last path segment: what remains after the last `/` once
trailing slashes are removed.  Node `path.posix.basename p` with no
extension argument. -/
def lastSegment (l : List Char) : List Char :=
  ((stripTrailingSlashes l).reverse.takeWhile (fun c => c != '/')).reverse

/-- Node `path.basename(p)` (one argument form). -/
def basename1 (p : String) : String := ⟨lastSegment p.data⟩

/-- Node `path.basename(p, ext)`: the last segment, with `ext`
removed when it is a proper suffix of it. -/
def basename2 (p ext : String) : String :=
  let b := lastSegment p.data
  let e := ext.data
  if e ≠ [] ∧ e.length < b.length ∧ b.drop (b.length - e.length) = e then
    ⟨b.take (b.length - e.length)⟩
  else ⟨b⟩

/-- Node `path.extname` restricted to the last path segment `seg`:
the substring from the last `.` to the end, except that a dot in first
position (dotfile) and the segment `".."` yield the empty extension. -/
def extnameL (seg : List Char) : List Char :=
  let afterRev := seg.reverse.takeWhile (fun c => c != '.')
  match seg.reverse.dropWhile (fun c => c != '.') with
  | [] => []
  | _ :: beforeRev =>
    if beforeRev = [] then []
    else if beforeRev = ['.'] ∧ afterRev = [] then []
    else '.' :: afterRev.reverse

/-- Node `path.extname(p)`. -/
def extname (p : String) : String := ⟨extnameL (lastSegment p.data)⟩

/-! ## MIME allow-list and the storage namer -/

/-- The `ALLOWED` object of `src/index.js` lines 25–30, as property
lookup `ALLOWED[mime]`. -/
def allowedExt (mime : String) : Option String :=
  if mime = "image/jpeg" then some ".jpg"
  else if mime = "image/png" then some ".png"
  else if mime = "image/gif" then some ".gif"
  else if mime = "video/mp4" then some ".mp4"
  else none

/-- The multer `fileFilter` test (line 72): `if (ALLOWED[file.mimetype])`. -/
def fileFilterOk (mime : String) : Bool := (allowedExt mime).isSome

/-- The `storage.filename` callback of `src/index.js` lines 54–65,
with the `uuid()` value passed in as `id`:

    const orig = file.originalname || "file";
    const defExt = ALLOWED[mime] || path.extname(orig) || "";
    let ext = path.extname(orig) || defExt || "";
    if (!ext) ext = ALLOWED[mime] || "";
    const base = sanitizeBaseName(path.basename(orig, path.extname(orig))) || "file";
    const finalName = `${base}_${uuid()}${ext}`;
-/
def storage_filename (originalname mime id : String) : String :=
  let orig := jsOr originalname "file"
  let defExt := jsOr (jsOr ((allowedExt mime).getD "") (extname orig)) ""
  let ext0 := jsOr (jsOr (extname orig) defExt) ""
  let ext := if ext0 = "" then jsOr ((allowedExt mime).getD "") "" else ext0
  let base := jsOr (sanitizeBaseName (basename2 orig (extname orig))) "file"
  base ++ "_" ++ id ++ ext

/-- Modelled from the spec (§4.2 Storage Namer algorithm), for the
refinement claim: prefer the original filename's extension, else the
MIME-table extension, else empty; base is the sanitized
extension-stripped original filename, or `"file"` when empty;
compose `{base}_{id}{extension}`. -/
def namerSpec (originalname mime id : String) : String :=
  let e := extname originalname
  let ext := if e ≠ "" then e else (allowedExt mime).getD ""
  let b := sanitizeBaseName (basename2 originalname (extname originalname))
  let base := if b = "" then "file" else b
  base ++ "_" ++ id ++ ext

/-! ## Bearer-token middleware -/

/-- `requireBearer` from `src/index.js` lines 39–45, with the request's
`Authorization` header as `auth` (`none` when absent).  `some (status, msg)`
is an early JSON error response; `none` means `next()` was called.
`h.startsWith("Bearer ")` is string-prefix, `h.slice(7)` drops seven
characters. -/
def requireBearer (token : String) (auth : Option String) : Option (Nat × String) :=
  if token = "" then some (500, "UPLOAD_TOKEN not set")
  else
    let h := auth.getD ""
    if "Bearer ".data.isPrefixOf h.data && h.data.drop 7 == token.data then none
    else some (401, "Unauthorized")

/-! ## Upload pipeline -/

/-- The two multipart field names accepted by `upload.fields` (lines 95–98). -/
inductive Field where
  | file
  | files
deriving DecidableEq

/-- One multipart part as multer sees it: field name, client-declared
original filename, declared MIME type, and streamed byte size. -/
structure Part where
  field : Field
  originalname : String
  mimetype : String
  size : Nat
deriving DecidableEq

/-- A file written by multer's disk storage: its field, the name produced
by `storage.filename`, and the part's size and MIME type. -/
structure StoredFile where
  field : Field
  filename : String
  size : Nat
  mimetype : String
deriving DecidableEq

/-- The multer `fileFilter` rejection message (line 73). -/
def multerFilterMsg : String := "Only jpg/png/gif/mp4 allowed"

/-- The configured multer size cap, `limits: { fileSize: 500 * 1024 * 1024 }`
(line 70), in bytes. -/
def fileSizeLimit : Nat := 500 * 1024 * 1024

/-- The multer middleware `upload.fields([{file,1},{files,20}])` over the
parts of the body in order, consuming one fresh `uuid()` from `ids` per
accepted file.  Per part, multer first enforces the field's `maxCount`
(`LIMIT_UNEXPECTED_FILE`) and runs `fileFilter` when the part's header
arrives, then streams the accepted part under `limits.fileSize`: a part
whose body exceeds the cap aborts with `LIMIT_FILE_SIZE` and is not
recorded.  Any error aborts the request, with the previously completed
files already on disk. -/
def runMulter : List String → Nat → Nat → List Part → List StoredFile × Option String
  | _, _, _, [] => ([], none)
  | ids, nFile, nFiles, p :: ps =>
    let over : Bool := match p.field with
      | Field.file => Nat.ble 1 nFile
      | Field.files => Nat.ble 20 nFiles
    if over then ([], some "LIMIT_UNEXPECTED_FILE")
    else if fileFilterOk p.mimetype then
      if fileSizeLimit < p.size then ([], some "LIMIT_FILE_SIZE")
      else
        let stored : StoredFile :=
          ⟨p.field, storage_filename p.originalname p.mimetype (ids.headD ""), p.size, p.mimetype⟩
        let nFile' := match p.field with | Field.file => nFile + 1 | Field.files => nFile
        let nFiles' := match p.field with | Field.file => nFiles | Field.files => nFiles + 1
        let r := runMulter ids.tail nFile' nFiles' ps
        (stored :: r.1, r.2)
    else ([], some multerFilterMsg)

/-- One hex digit, upper case, as `encodeURIComponent` emits. -/
def hexDigit (n : Nat) : Char := if n < 10 then Char.ofNat (48 + n) else Char.ofNat (55 + n)

/-- A percent-encoded byte `%XY`. -/
def percentByte (b : Nat) : List Char := ['%', hexDigit (b / 16), hexDigit (b % 16)]

/-- UTF-8 encoding of a Unicode scalar value. -/
def utf8Bytes (n : Nat) : List Nat :=
  if n < 128 then [n]
  else if n < 2048 then [192 + n / 64, 128 + n % 64]
  else if n < 65536 then [224 + n / 4096, 128 + n / 64 % 64, 128 + n % 64]
  else [240 + n / 262144, 128 + n / 4096 % 64, 128 + n / 64 % 64, 128 + n % 64]

/-- The characters `encodeURIComponent` leaves unescaped:
alphanumerics and `- _ . ! ~ * ' ( )`. -/
def uriUnreserved (c : Char) : Bool :=
  c.isAlphanum || c == '-' || c == '_' || c == '.' || c == '!' || c == '~' ||
    c == '*' || c == Char.ofNat 39 || c == '(' || c == ')'

/-- JavaScript `encodeURIComponent`. -/
def encodeURIComponent (s : String) : String :=
  ⟨s.data.flatMap
    (fun c => if uriUnreserved c then [c] else (utf8Bytes c.toNat).flatMap percentByte)⟩

/-- The host prefix of returned URLs (line 100–101):
`PUBLIC_BASE || protocol + "://" + (xForwardedHost || hostHeader)`. -/
def hostOf (publicBase protocol xfh hostHdr : String) : String :=
  jsOr publicBase (protocol ++ "://" ++ jsOr xfh hostHdr)

/-- One element of the `uploaded` array in the success response. -/
structure UploadEntry where
  url : String
  filename : String
  size : Nat
  mimetype : String
deriving DecidableEq

/-- The entry the handler pushes for a stored file (lines 104–111). -/
def mkEntry (host : String) (f : StoredFile) : UploadEntry :=
  ⟨host ++ "/files/" ++ encodeURIComponent f.filename, f.filename, f.size, f.mimetype⟩

/-- Outcome of a `POST /upload` request: a JSON error with an HTTP
status, a multer-level error handed to Express, or the success body. -/
inductive UploadResult where
  | errorResp (status : Nat) (msg : String)
  | multerError (msg : String)
  | ok (uploaded : List UploadEntry)
deriving DecidableEq

/-- The whole `POST /upload` route (lines 92–119): `requireBearer`, then the
multer middleware, then the handler that collects `req.files.file` followed
by `req.files.files` into the `uploaded` array.  The second component is the
list of files written to the storage directory. -/
def handleUpload (token : String) (auth : Option String)
    (publicBase protocol xfh hostHdr : String)
    (ids : List String) (parts : List Part) : UploadResult × List StoredFile :=
  match requireBearer token auth with
  | some (st, msg) => (.errorResp st msg, [])
  | none =>
    let r := runMulter ids 0 0 parts
    match r.2 with
    | some m => (.multerError m, r.1)
    | none =>
      let host := hostOf publicBase protocol xfh hostHdr
      let collected :=
        (r.1.filter (fun f => decide (f.field = Field.file))).map (mkEntry host) ++
          (r.1.filter (fun f => decide (f.field = Field.files))).map (mkEntry host)
      if collected = [] then (.errorResp 400 "No files received", r.1)
      else (.ok collected, r.1)

/-- Specification-side view of a cap- and filter-clean multer run: the files
stored for `parts` in body order, consuming one id per part. -/
def stores : List Part → List String → List StoredFile
  | [], _ => []
  | p :: ps, ids =>
    ⟨p.field, storage_filename p.originalname p.mimetype (ids.headD ""), p.size, p.mimetype⟩ ::
      stores ps ids.tail

/-- The shape of a v4 uuid as far as the proofs need it: 36 characters,
none of them a dot. -/
def goodId (id : String) : Bool :=
  id.data.all (fun c => c != '.') && id.length == 36

/-! ## Delete handler -/

/-- What `fsp.unlink` did for the delete handler: succeeded, failed with
`ENOENT` (no such file), or failed with some other error message. -/
inductive UnlinkOutcome where
  | ok
  | enoent
  | err (msg : String)
deriving DecidableEq

/-- Outcome of `DELETE /files/:name`: an error JSON with status, or the
success body `{deleted:true, name}`. -/
inductive DeleteResult where
  | errorResp (status : Nat) (msg : String)
  | deleted (name : String)
deriving DecidableEq

/-- The `DELETE /files/:name` route (lines 122–131): bearer check, then
`path.basename` of the URL parameter, then `fsp.unlink` on
`path.join(UPLOAD_DIR, name)`; `ENOENT` is absorbed into success, any
other error becomes a 500 with the underlying message. -/
def handleDelete (token : String) (auth : Option String) (rawName : String)
    (out : UnlinkOutcome) : DeleteResult :=
  match requireBearer token auth with
  | some (st, msg) => .errorResp st msg
  | none =>
    let name := basename1 rawName
    match out with
    | .ok => .deleted name
    | .enoent => .deleted name
    | .err m => .errorResp 500 m

/-! ## Retention sweeper -/

/-- A `withFileTypes` directory entry together with its `stat` mtime:
`isFile` is `Dirent.isFile()` (false for directories and symlinks). -/
structure DirEntry where
  name : String
  isFile : Bool
  mtimeMs : Int
deriving DecidableEq

/-- The `for (const e of entries)` loop of `cleanOldFiles` (lines 141–149):
attempts to unlink every regular file strictly older than `maxAgeMs`;
`unlinkFails` says which unlink calls fail, and a failure is swallowed by
`.catch(() => {})`.  Returns the names actually removed and the `removed`
counter (which the code increments even when the unlink failed). -/
def cleanLoop (now maxAgeMs : Int) (unlinkFails : String → Bool) :
    List DirEntry → List String × Nat
  | [] => ([], 0)
  | e :: es =>
    if e.isFile && decide (maxAgeMs < now - e.mtimeMs) then
      let r := cleanLoop now maxAgeMs unlinkFails es
      ((if unlinkFails e.name then r.1 else e.name :: r.1), r.2 + 1)
    else cleanLoop now maxAgeMs unlinkFails es

/-- `cleanOldFiles` (lines 134–154) on an already-listed directory:
`maxAgeMs = MAX_AGE_HOURS * 60 * 60 * 1000`. -/
def cleanOldFiles (maxAgeHours now : Int) (unlinkFails : String → Bool)
    (entries : List DirEntry) : List String × Nat :=
  cleanLoop now (maxAgeHours * 60 * 60 * 1000) unlinkFails entries

/-! ## List helper lemmas -/

lemma takeWhile_all_append {α} (p : α → Bool) :
    ∀ (l m : List α), (∀ a ∈ l, p a = true) →
      List.takeWhile p (l ++ m) = l ++ List.takeWhile p m
  | [], _, _ => by simp
  | a :: l, m, h => by
    have ha := h a (by simp)
    simp only [List.cons_append, List.takeWhile_cons, ha, if_true]
    rw [takeWhile_all_append p l m (fun x hx => h x (by simp [hx]))]

lemma dropWhile_all_append {α} (p : α → Bool) :
    ∀ (l m : List α), (∀ a ∈ l, p a = true) →
      List.dropWhile p (l ++ m) = List.dropWhile p m
  | [], _, _ => by simp
  | a :: l, m, h => by
    have ha := h a (by simp)
    simp only [List.cons_append, List.dropWhile_cons, ha, if_true]
    exact dropWhile_all_append p l m (fun x hx => h x (by simp [hx]))

lemma dropWhile_eq_self_of_all {α} (p : α → Bool) :
    ∀ (l : List α), (∀ a ∈ l, p a = false) → List.dropWhile p l = l
  | [], _ => rfl
  | a :: l, h => by simp [List.dropWhile_cons, h a (by simp)]

lemma takeWhile_eq_self_of_all {α} (p : α → Bool) :
    ∀ (l : List α), (∀ a ∈ l, p a = true) → List.takeWhile p l = l
  | [], _ => rfl
  | a :: l, h => by
    simp only [List.takeWhile_cons, h a (by simp), if_true]
    rw [takeWhile_eq_self_of_all p l (fun x hx => h x (by simp [hx]))]

/-! ## Path-function lemmas -/

lemma lastSegment_of_no_slash (l : List Char)
    (h : ∀ c ∈ l, (c == '/') = false) : lastSegment l = l := by
  unfold lastSegment stripTrailingSlashes
  rw [dropWhile_eq_self_of_all _ _ (fun a ha => h a (List.mem_reverse.mp ha)),
      List.reverse_reverse,
      takeWhile_eq_self_of_all _ _ (by
        intro a ha
        have := h a (List.mem_reverse.mp ha)
        simp [bne, this]),
      List.reverse_reverse]

lemma extnameL_concat (l t : List Char) (hl : l ≠ []) (ht : t ≠ [])
    (htd : ∀ c ∈ t, (c == '.') = false) :
    extnameL (l ++ '.' :: t) = '.' :: t := by
  have hrev : (l ++ '.' :: t).reverse = t.reverse ++ '.' :: l.reverse := by
    simp
  have hmem : ∀ a ∈ t.reverse, (fun c => c != '.') a = true := by
    intro a ha
    have := htd a (List.mem_reverse.mp ha)
    simp [bne, this]
  have htake : (l ++ '.' :: t).reverse.takeWhile (fun c => c != '.') = t.reverse := by
    rw [hrev, takeWhile_all_append _ _ _ hmem]
    simp [List.takeWhile_cons]
  have hdrop : (l ++ '.' :: t).reverse.dropWhile (fun c => c != '.') = '.' :: l.reverse := by
    rw [hrev, dropWhile_all_append _ _ _ hmem]
    simp [List.dropWhile_cons]
  have hlrev : l.reverse ≠ [] := by simpa using hl
  have hnots : ¬ (l.reverse = ['.'] ∧ t.reverse = []) := by
    rintro ⟨-, h2⟩
    exact ht (by simpa using h2)
  unfold extnameL
  rw [htake, hdrop]
  simp [hlrev]
  exact fun _ => ht

lemma extname_data (p : String) : extname p = ⟨extnameL (lastSegment p.data)⟩ := rfl

lemma extname_shape (p : String) :
    extname p = "" ∨
      ∃ t, (extname p).data = '.' :: t ∧ ∀ c ∈ t, (c == '.') = false := by
  cases hdw : (lastSegment p.data).reverse.dropWhile (fun c => c != '.') with
  | nil => exact Or.inl (by simp [extname, extnameL, hdw])
  | cons c before =>
    by_cases h1 : before = []
    · exact Or.inl (by simp [extname, extnameL, hdw, h1])
    · by_cases h2 : before = ['.'] ∧
          (lastSegment p.data).reverse.takeWhile (fun c => c != '.') = []
      · exact Or.inl (by simp [extname, extnameL, hdw, h2.1, h2.2])
      · refine Or.inr ⟨((lastSegment p.data).reverse.takeWhile (fun c => c != '.')).reverse,
          ?_, ?_⟩
        · show (⟨extnameL (lastSegment p.data)⟩ : String).data = _
          simp only [extnameL, hdw]
          rw [if_neg h1, if_neg h2]
        · intro x hx
          have hx2 : x ∈ (lastSegment p.data).reverse.takeWhile (fun c => c != '.') :=
            List.mem_reverse.mp hx
          have := List.mem_takeWhile_imp hx2
          simpa [bne] using this

/-! ## Sanitizer lemmas -/

lemma sanitizeChar_idem (a : Char) : sanitizeChar (sanitizeChar a) = sanitizeChar a := by
  by_cases h : keepChar a = true
  · simp [sanitizeChar, h]
  · have h2 : sanitizeChar a = '_' := by simp [sanitizeChar, h]
    rw [h2]
    decide

lemma strmk_inj {a b : List Char} : (⟨a⟩ : String) = ⟨b⟩ ↔ a = b :=
  ⟨fun h => congrArg String.data h, fun h => congrArg String.mk h⟩

lemma keepChar_sanitizeChar (a : Char) : keepChar (sanitizeChar a) = true := by
  by_cases h : keepChar a = true
  · simp [sanitizeChar, h]
  · have h2 : sanitizeChar a = '_' := by simp [sanitizeChar, h]
    rw [h2]
    decide

/-! ## Storage-namer lemmas -/

lemma str_data_append (s t : String) : (s ++ t).data = s.data ++ t.data := by
  cases s; cases t; rfl

lemma name_data_eq (base id ext : String) :
    (base ++ "_" ++ id ++ ext).data = base.data ++ '_' :: (id.data ++ ext.data) := by
  rw [str_data_append, str_data_append, str_data_append]
  show (base.data ++ ['_'] ++ id.data) ++ ext.data = _
  simp

lemma jsOr_of_ne {a : String} (h : a ≠ "") (b : String) : jsOr a b = a := by
  simp [jsOr, h]

lemma allowedExt_shape (mime : String) (h : fileFilterOk mime = true) :
    ∃ t : List Char, ((allowedExt mime).getD "").data = '.' :: t ∧ t ≠ [] ∧
      ∀ c ∈ t, (c == '.') = false ∧ (c == '/') = false := by
  by_cases h1 : mime = "image/jpeg"
  · subst h1; exact ⟨['j', 'p', 'g'], by decide, by decide, by decide⟩
  · by_cases h2 : mime = "image/png"
    · subst h2; exact ⟨['p', 'n', 'g'], by decide, by decide, by decide⟩
    · by_cases h3 : mime = "image/gif"
      · subst h3; exact ⟨['g', 'i', 'f'], by decide, by decide, by decide⟩
      · by_cases h4 : mime = "video/mp4"
        · subst h4; exact ⟨['m', 'p', '4'], by decide, by decide, by decide⟩
        · exfalso
          unfold fileFilterOk allowedExt at h
          simp [h1, h2, h3, h4] at h

/-- The `storage.filename` callback, with the redundant `defExt` dance of the
source collapsed: extension = the original filename's extension when present,
else the MIME-table entry. -/
lemma storage_filename_unfold (o mime id : String) :
    storage_filename o mime id =
      jsOr (sanitizeBaseName (basename2 (jsOr o "file") (extname (jsOr o "file")))) "file"
        ++ "_" ++ id ++
      (if extname (jsOr o "file") = "" then (allowedExt mime).getD ""
       else extname (jsOr o "file")) := by
  unfold storage_filename
  by_cases hx : extname (jsOr o "file") = "" <;>
    by_cases ht : (allowedExt mime).getD "" = "" <;>
      (simp only [jsOr] at hx ⊢; simp [hx, ht])

lemma keepChar_no_slash {c : Char} (h : keepChar c = true) : (c == '/') = false := by
  by_cases hc : c = '/'
  · subst hc; exact absurd h (by decide)
  · simp [hc]

lemma sanitize_no_slash (s : String) :
    ∀ c ∈ (sanitizeBaseName s).data, (c == '/') = false := by
  intro c hc
  rcases List.mem_map.mp hc with ⟨a, -, rfl⟩
  exact keepChar_no_slash (keepChar_sanitizeChar a)

lemma baseOf_no_slash (s : String) :
    ∀ c ∈ (jsOr (sanitizeBaseName s) "file").data, (c == '/') = false := by
  by_cases h : sanitizeBaseName s = ""
  · rw [show jsOr (sanitizeBaseName s) "file" = "file" from by simp [jsOr, h]]
    decide
  · rw [jsOr_of_ne h]
    exact sanitize_no_slash s

/-- Every filename the storage namer produces for an allow-listed MIME type
has the shape `base ++ "_" ++ id ++ "." ++ tail` with a dot-free tail. -/
lemma storage_filename_shape (o mime id : String) (hm : fileFilterOk mime = true) :
    ∃ b t : List Char,
      (storage_filename o mime id).data = b ++ '_' :: (id.data ++ '.' :: t) ∧
      (∀ c ∈ t, (c == '.') = false) := by
  rw [storage_filename_unfold]
  by_cases hx : extname (jsOr o "file") = ""
  · rw [if_pos hx]
    obtain ⟨t, htd, -, hprop⟩ := allowedExt_shape mime hm
    refine ⟨(jsOr (sanitizeBaseName (basename2 (jsOr o "file") (extname (jsOr o "file")))) "file").data,
      t, ?_, fun c hc => (hprop c hc).1⟩
    rw [name_data_eq, htd]
  · rw [if_neg hx]
    rcases extname_shape (jsOr o "file") with h | ⟨t, htd, hprop⟩
    · exact absurd h hx
    · refine ⟨(jsOr (sanitizeBaseName (basename2 (jsOr o "file") (extname (jsOr o "file")))) "file").data,
        t, ?_, hprop⟩
      rw [name_data_eq, htd]

/-! ## Bearer-check lemmas -/

lemma bearer_check_eq {token h : String}
    (hc : ("Bearer ".data.isPrefixOf h.data && h.data.drop 7 == token.data) = true) :
    h = "Bearer " ++ token := by
  rw [Bool.and_eq_true] at hc
  obtain ⟨hpre, hdrop⟩ := hc
  obtain ⟨r, hr⟩ := List.isPrefixOf_iff_prefix.mp hpre
  have hdrop7 : h.data.drop 7 = r := by
    rw [← hr, show (7 : Nat) = ("Bearer ".data).length from by decide]
    exact List.drop_left _ _
  have hr2 : r = token.data := by
    rw [← hdrop7]
    exact eq_of_beq hdrop
  have hd : h.data = ("Bearer " ++ token).data := by
    rw [str_data_append, ← hr, hr2]
  calc h = ⟨h.data⟩ := rfl
    _ = ⟨("Bearer " ++ token).data⟩ := by rw [hd]
    _ = "Bearer " ++ token := rfl

lemma bearer_check_self (token : String) :
    ("Bearer ".data.isPrefixOf ("Bearer " ++ token).data &&
      ("Bearer " ++ token).data.drop 7 == token.data) = true := by
  rw [str_data_append]
  have h1 : "Bearer ".data.isPrefixOf ("Bearer ".data ++ token.data) = true :=
    List.isPrefixOf_iff_prefix.mpr ⟨token.data, rfl⟩
  have h2 : (("Bearer ".data ++ token.data).drop 7 == token.data) = true := by
    rw [show (7 : Nat) = ("Bearer ".data).length from by decide, List.drop_left]
    exact beq_self_eq_true _
  rw [h1, h2]
  rfl

lemma requireBearer_none_iff (token : String) (auth : Option String) :
    requireBearer token auth = none ↔ token ≠ "" ∧ auth = some ("Bearer " ++ token) := by
  unfold requireBearer
  by_cases ht : token = ""
  · simp [ht]
  · rw [if_neg ht]
    cases auth with
    | none =>
      have hfalse : "Bearer ".data.isPrefixOf (Option.getD none "").data = false := by decide
      simp [hfalse, ht]
    | some h =>
      simp only [Option.getD_some]
      by_cases hc : ("Bearer ".data.isPrefixOf h.data && h.data.drop 7 == token.data) = true
      · rw [if_pos hc]
        simp [ht, bearer_check_eq hc]
      · rw [if_neg hc]
        apply iff_of_false
        · simp
        · rintro ⟨-, hsome⟩
          have heq : h = "Bearer " ++ token := Option.some.inj hsome
          rw [heq] at hc
          exact hc (bearer_check_self token)

lemma requireBearer_unauthorized {token : String} {auth : Option String}
    (ht : token ≠ "") (hauth : auth ≠ some ("Bearer " ++ token)) :
    requireBearer token auth = some (401, "Unauthorized") := by
  unfold requireBearer
  rw [if_neg ht]
  cases auth with
  | none =>
    have hfalse : "Bearer ".data.isPrefixOf (Option.getD none "").data = false := by decide
    simp [hfalse]
  | some h =>
    simp only [Option.getD_some]
    by_cases hc : ("Bearer ".data.isPrefixOf h.data && h.data.drop 7 == token.data) = true
    · exact absurd (congrArg some (bearer_check_eq hc)) hauth
    · rw [if_neg hc]

/-! ## Multer-run lemmas -/

lemma runMulter_stored_allowed :
    ∀ (parts : List Part) (ids : List String) (nF nFs : Nat),
      ∀ f ∈ (runMulter ids nF nFs parts).1, fileFilterOk f.mimetype = true
  | [], _, _, _ => by
    intro f hf
    simp [runMulter] at hf
  | p :: ps, ids, nF, nFs => by
    intro f hf
    by_cases hover : (match p.field with
        | Field.file => Nat.ble 1 nF
        | Field.files => Nat.ble 20 nFs) = true
    · simp [runMulter, hover] at hf
    · by_cases hm : fileFilterOk p.mimetype = true
      · by_cases hsz : fileSizeLimit < p.size
        · simp [runMulter, hover, hm, hsz] at hf
        · simp [runMulter, hover, hm, hsz] at hf
          rcases hf with rfl | hf
          · exact hm
          · exact runMulter_stored_allowed ps ids.tail _ _ f hf
      · simp [runMulter, hover, hm] at hf

lemma runMulter_invalid_err :
    ∀ (parts : List Part) (ids : List String) (nF nFs : Nat),
      (∃ p ∈ parts, fileFilterOk p.mimetype = false) →
      (∀ p ∈ parts, p.size ≤ fileSizeLimit) →
      nF + parts.countP (fun p => decide (p.field = Field.file)) ≤ 1 →
      nFs + parts.countP (fun p => decide (p.field = Field.files)) ≤ 20 →
      (runMulter ids nF nFs parts).2 = some multerFilterMsg
  | [], _, _, _, hex, _, _, _ => by
    rcases hex with ⟨p, hp, -⟩
    exact absurd hp (List.not_mem_nil p)
  | p :: ps, ids, nF, nFs, hex, hsize, hcF, hcFs => by
    have hsz : ¬ (fileSizeLimit < p.size) := Nat.not_lt.mpr (hsize p (by simp))
    have hsize' : ∀ q ∈ ps, q.size ≤ fileSizeLimit :=
      fun q hq => hsize q (by simp [hq])
    cases hfld : p.field with
    | file =>
      have hcnt : (p :: ps).countP (fun q => decide (q.field = Field.file)) =
          ps.countP (fun q => decide (q.field = Field.file)) + 1 := by
        simp [List.countP_cons, hfld]
      have hcnt2 : (p :: ps).countP (fun q => decide (q.field = Field.files)) =
          ps.countP (fun q => decide (q.field = Field.files)) := by
        simp [List.countP_cons, hfld]
      rw [hcnt] at hcF
      rw [hcnt2] at hcFs
      have hnF : nF = 0 := by omega
      have hover : Nat.ble 1 nF = false := by
        rw [hnF]
        rfl
      by_cases hm : fileFilterOk p.mimetype = true
      · have hex2 : ∃ q ∈ ps, fileFilterOk q.mimetype = false := by
          rcases hex with ⟨q, hq, hqf⟩
          rcases List.mem_cons.mp hq with rfl | hq2
          · exact absurd hm (by rw [hqf]; exact Bool.false_ne_true)
          · exact ⟨q, hq2, hqf⟩
        have hrec := runMulter_invalid_err ps ids.tail (nF + 1) nFs
          hex2 hsize' (by omega) (by omega)
        simp [runMulter, hfld, hover, hm, hsz]
        exact hrec
      · simp [runMulter, hfld, hover, hm]
    | files =>
      have hcnt : (p :: ps).countP (fun q => decide (q.field = Field.files)) =
          ps.countP (fun q => decide (q.field = Field.files)) + 1 := by
        simp [List.countP_cons, hfld]
      have hcnt2 : (p :: ps).countP (fun q => decide (q.field = Field.file)) =
          ps.countP (fun q => decide (q.field = Field.file)) := by
        simp [List.countP_cons, hfld]
      rw [hcnt] at hcFs
      rw [hcnt2] at hcF
      have hnFs : ¬ (20 ≤ nFs) := by omega
      have hover : Nat.ble 20 nFs = false := by
        cases hble : Nat.ble 20 nFs
        · rfl
        · exact absurd (Nat.le_of_ble_eq_true hble) hnFs
      by_cases hm : fileFilterOk p.mimetype = true
      · have hex2 : ∃ q ∈ ps, fileFilterOk q.mimetype = false := by
          rcases hex with ⟨q, hq, hqf⟩
          rcases List.mem_cons.mp hq with rfl | hq2
          · exact absurd hm (by rw [hqf]; exact Bool.false_ne_true)
          · exact ⟨q, hq2, hqf⟩
        have hrec := runMulter_invalid_err ps ids.tail nF (nFs + 1)
          hex2 hsize' (by omega) (by omega)
        simp [runMulter, hfld, hover, hm, hsz]
        exact hrec
      · simp [runMulter, hfld, hover, hm]

lemma runMulter_ok :
    ∀ (parts : List Part) (ids : List String) (nF nFs : Nat),
      (∀ p ∈ parts, fileFilterOk p.mimetype = true) →
      (∀ p ∈ parts, p.size ≤ fileSizeLimit) →
      nF + parts.countP (fun p => decide (p.field = Field.file)) ≤ 1 →
      nFs + parts.countP (fun p => decide (p.field = Field.files)) ≤ 20 →
      runMulter ids nF nFs parts = (stores parts ids, none)
  | [], _, _, _, _, _, _, _ => rfl
  | p :: ps, ids, nF, nFs, hall, hsize, hcF, hcFs => by
    have hm : fileFilterOk p.mimetype = true := hall p (by simp)
    have hsz : ¬ (fileSizeLimit < p.size) := Nat.not_lt.mpr (hsize p (by simp))
    have hall' : ∀ q ∈ ps, fileFilterOk q.mimetype = true :=
      fun q hq => hall q (by simp [hq])
    have hsize' : ∀ q ∈ ps, q.size ≤ fileSizeLimit :=
      fun q hq => hsize q (by simp [hq])
    cases hfld : p.field with
    | file =>
      have hcnt : (p :: ps).countP (fun q => decide (q.field = Field.file)) =
          ps.countP (fun q => decide (q.field = Field.file)) + 1 := by
        simp [List.countP_cons, hfld]
      have hcnt2 : (p :: ps).countP (fun q => decide (q.field = Field.files)) =
          ps.countP (fun q => decide (q.field = Field.files)) := by
        simp [List.countP_cons, hfld]
      rw [hcnt] at hcF
      rw [hcnt2] at hcFs
      have hnF : nF = 0 := by omega
      have hover : Nat.ble 1 nF = false := by
        rw [hnF]
        rfl
      have hrec := runMulter_ok ps ids.tail (nF + 1) nFs hall' hsize' (by omega) (by omega)
      simp [runMulter, hfld, hover, hm, hsz, hrec, stores]
    | files =>
      have hcnt : (p :: ps).countP (fun q => decide (q.field = Field.files)) =
          ps.countP (fun q => decide (q.field = Field.files)) + 1 := by
        simp [List.countP_cons, hfld]
      have hcnt2 : (p :: ps).countP (fun q => decide (q.field = Field.file)) =
          ps.countP (fun q => decide (q.field = Field.file)) := by
        simp [List.countP_cons, hfld]
      rw [hcnt] at hcFs
      rw [hcnt2] at hcF
      have hnFs : ¬ (20 ≤ nFs) := by omega
      have hover : Nat.ble 20 nFs = false := by
        cases hble : Nat.ble 20 nFs
        · rfl
        · exact absurd (Nat.le_of_ble_eq_true hble) hnFs
      have hrec := runMulter_ok ps ids.tail nF (nFs + 1) hall' hsize' (by omega) (by omega)
      simp [runMulter, hfld, hover, hm, hsz, hrec, stores]

lemma stores_length :
    ∀ (parts : List Part) (ids : List String), (stores parts ids).length = parts.length
  | [], _ => rfl
  | p :: ps, ids => by simp [stores, stores_length ps ids.tail]

lemma mem_stores :
    ∀ (parts : List Part) (ids : List String), parts.length ≤ ids.length →
      ∀ f ∈ stores parts ids,
        ∃ q id, q ∈ parts ∧ id ∈ ids.take parts.length ∧
          f = ⟨q.field, storage_filename q.originalname q.mimetype id, q.size, q.mimetype⟩
  | [], _, _, f, hf => by simp [stores] at hf
  | p :: ps, ids, hlen, f, hf => by
    cases ids with
    | nil => simp at hlen
    | cons i ids' =>
      have hlen' : ps.length ≤ ids'.length := by simpa using hlen
      simp only [stores] at hf
      rcases List.mem_cons.mp hf with rfl | hf2
      · exact ⟨p, i, by simp, by simp, rfl⟩
      · obtain ⟨q, id, hq, hid, heq⟩ := mem_stores ps ids' hlen' f hf2
        exact ⟨q, id, by simp [hq], by simp [List.mem_cons_of_mem, hid], heq⟩

lemma goodId_spec {id : String} (h : goodId id = true) :
    (∀ c ∈ id.data, (c == '.') = false) ∧ id.data.length = 36 := by
  unfold goodId at h
  rw [Bool.and_eq_true] at h
  obtain ⟨h1, h2⟩ := h
  constructor
  · intro c hc
    have hcc := List.all_eq_true.mp h1 c hc
    cases hcb : (c == '.')
    · rfl
    · rw [bne, hcb] at hcc
      exact absurd hcc (by decide)
  · rw [beq_iff_eq] at h2
    exact h2

/-- Two storage-namer outputs can only coincide when their embedded ids
coincide: the tail after the last dot and the 36 characters before it are
forced by the name. -/
lemma name_inj {b1 id1 t1 b2 id2 t2 : List Char}
    (ht1 : ∀ c ∈ t1, (c == '.') = false)
    (ht2 : ∀ c ∈ t2, (c == '.') = false)
    (hlen : id1.length = id2.length)
    (heq : b1 ++ '_' :: (id1 ++ '.' :: t1) = b2 ++ '_' :: (id2 ++ '.' :: t2)) :
    id1 = id2 := by
  have hrev := congrArg List.reverse heq
  have e1 : (b1 ++ '_' :: (id1 ++ '.' :: t1)).reverse
      = t1.reverse ++ '.' :: (id1.reverse ++ '_' :: b1.reverse) := by
    simp
  have e2 : (b2 ++ '_' :: (id2 ++ '.' :: t2)).reverse
      = t2.reverse ++ '.' :: (id2.reverse ++ '_' :: b2.reverse) := by
    simp
  rw [e1, e2] at hrev
  have hm1 : ∀ a ∈ t1.reverse, (fun c => c != '.') a = true := by
    intro a ha
    have := ht1 a (List.mem_reverse.mp ha)
    simp [bne, this]
  have hm2 : ∀ a ∈ t2.reverse, (fun c => c != '.') a = true := by
    intro a ha
    have := ht2 a (List.mem_reverse.mp ha)
    simp [bne, this]
  have hdw := congrArg (List.dropWhile (fun c => c != '.')) hrev
  rw [dropWhile_all_append _ _ _ hm1, dropWhile_all_append _ _ _ hm2] at hdw
  have hpd : (('.' : Char) != '.') = false := by decide
  rw [List.dropWhile_cons, List.dropWhile_cons] at hdw
  simp only [hpd, if_false] at hdw
  have htails : id1.reverse ++ '_' :: b1.reverse = id2.reverse ++ '_' :: b2.reverse :=
    List.tail_eq_of_cons_eq hdw
  have hlenr : id1.reverse.length = id2.reverse.length := by simp [hlen]
  have hids := (List.append_inj htails hlenr).1
  have := congrArg List.reverse hids
  simpa using this

lemma stores_filenames_nodup :
    ∀ (parts : List Part) (ids : List String),
      (∀ p ∈ parts, fileFilterOk p.mimetype = true) →
      parts.length ≤ ids.length →
      (∀ id ∈ ids.take parts.length, goodId id = true) →
      (ids.take parts.length).Nodup →
      ((stores parts ids).map (fun f => f.filename)).Nodup
  | [], _, _, _, _, _ => by simp [stores]
  | p :: ps, ids, hall, hlen, hgood, hnd => by
    cases ids with
    | nil => simp at hlen
    | cons i ids' =>
      have hlen' : ps.length ≤ ids'.length := by simpa using hlen
      have htake : (i :: ids').take (p :: ps).length = i :: ids'.take ps.length := rfl
      rw [htake] at hgood hnd
      have hgood' : ∀ id ∈ ids'.take ps.length, goodId id = true :=
        fun id hid => hgood id (List.mem_cons_of_mem _ hid)
      have hinotin := (List.nodup_cons.mp hnd).1
      have hnd' := (List.nodup_cons.mp hnd).2
      have hall' : ∀ q ∈ ps, fileFilterOk q.mimetype = true :=
        fun q hq => hall q (by simp [hq])
      simp only [stores, List.map_cons]
      rw [List.nodup_cons]
      refine ⟨?_, stores_filenames_nodup ps ids' hall' hlen' hgood' hnd'⟩
      intro hmem
      rcases List.mem_map.mp hmem with ⟨f, hf, hfn⟩
      obtain ⟨q, id', hq, hid', rfl⟩ := mem_stores ps ids' hlen' f hf
      obtain ⟨bA, tA, hA, hAt⟩ :=
        storage_filename_shape p.originalname p.mimetype i (hall p (by simp))
      obtain ⟨bB, tB, hB, hBt⟩ :=
        storage_filename_shape q.originalname q.mimetype id' (hall q (by simp [hq]))
      obtain ⟨hgA1, hgA2⟩ := goodId_spec (hgood i (by simp))
      obtain ⟨hgB1, hgB2⟩ := goodId_spec (hgood' id' hid')
      have hdata : bB ++ '_' :: (id'.data ++ '.' :: tB) =
          bA ++ '_' :: (i.data ++ '.' :: tA) := by
        rw [← hB, ← hA]
        exact congrArg String.data hfn
      have hlen36 : id'.data.length = i.data.length := by rw [hgA2, hgB2]
      have hideq : id'.data = i.data :=
        name_inj hBt hAt hlen36 hdata
      have : id' = i := by
        calc id' = ⟨id'.data⟩ := rfl
          _ = ⟨i.data⟩ := by rw [hideq]
          _ = i := rfl
      rw [this] at hid'
      exact hinotin hid'

end FileServer

open FileServer

/-- **C4.** `sanitizeBaseName` is a total function on strings; its output has
the same length as its input (each character is handled one-for-one), it is
exactly the character-wise substitution that keeps characters of the class
`[A-Za-z0-9_.-]` unchanged and in order and turns every other character into
an underscore, and every character of the output lies in that class. -/
theorem sanitize_total_and_pointwise (s : String) :
    (sanitizeBaseName s).length = s.length ∧
    (sanitizeBaseName s).data = s.data.map sanitizeChar ∧
    ((sanitizeBaseName s).data.all keepChar) = true := by
  refine ⟨?_, rfl, ?_⟩
  · show (s.data.map sanitizeChar).length = s.data.length
    exact List.length_map _ _
  · rw [List.all_eq_true]
    intro c hc
    rcases List.mem_map.mp hc with ⟨a, _, rfl⟩
    exact keepChar_sanitizeChar a

/-- **C3, counterexample.** The claim "`sanitize(s)` is empty iff `s` is empty
or consists entirely of characters outside `[A-Za-z0-9_.-]`" fails at the
concrete input `"/"`: the slash is an invalid character, yet the sanitizer
rewrites it to `"_"`, which is not empty. -/
theorem sanitize_empty_iff_counterexample :
    ¬ (sanitizeBaseName "/" = "" ↔
        (("/" : String) = "" ∨ ∀ c ∈ ("/" : String).data, keepChar c = false)) := by
  decide

/-- **C3, amended.** Invalid characters are replaced by underscores rather than
dropped, so the sanitizer's output is empty exactly when its input is empty;
an all-invalid nonempty input yields a nonempty string of underscores. -/
theorem sanitize_empty_iff (s : String) : sanitizeBaseName s = "" ↔ s = "" := by
  obtain ⟨l⟩ := s
  rw [show ("" : String) = ⟨[]⟩ from rfl]
  show (⟨l.map sanitizeChar⟩ : String) = ⟨[]⟩ ↔ (⟨l⟩ : String) = ⟨[]⟩
  rw [strmk_inj, strmk_inj, List.map_eq_nil_iff]

/-- **C10.** The sanitizer is idempotent: every character it emits (kept
characters and substituted underscores) is itself in the kept class, so a
second application changes nothing. -/
theorem sanitize_idempotent (s : String) :
    sanitizeBaseName (sanitizeBaseName s) = sanitizeBaseName s := by
  obtain ⟨l⟩ := s
  show (⟨(l.map sanitizeChar).map sanitizeChar⟩ : String) = ⟨l.map sanitizeChar⟩
  rw [List.map_map]
  have hfun : sanitizeChar ∘ sanitizeChar = sanitizeChar := funext sanitizeChar_idem
  rw [hfun]

/-- **C9.** The `storage.filename` callback is total (a plain function) and
computes exactly the algorithm of §4.2: extension = the original filename's
extension if present, else the MIME-table entry, else empty; base = the
sanitized extension-stripped original filename, with literal `"file"`
substituted when sanitization yields the empty string (or when no original
name was supplied); the result is `{base}_{id}{extension}` where `id` is the
freshly generated identifier passed in. -/
theorem storage_filename_follows_spec (originalname mime id : String) :
    storage_filename originalname mime id = namerSpec originalname mime id := by
  have hf : extname "file" = "" := by decide
  have he0 : extname "" = "" := by decide
  have hb1 : basename2 "file" "" = "file" := by decide
  have hb0 : basename2 "" "" = "" := by decide
  have hs1 : sanitizeBaseName "file" = "file" := by decide
  have hs0 : sanitizeBaseName "" = "" := by decide
  have hjf : jsOr "" "file" = "file" := by decide
  unfold storage_filename namerSpec
  by_cases ho : originalname = ""
  · subst ho
    simp only [hjf, hf, he0, hb1, hb0, hs1, hs0]
    by_cases ht : (allowedExt mime).getD "" = "" <;> simp [jsOr, ht]
  · rw [show jsOr originalname "file" = originalname from by simp [jsOr, ho]]
    by_cases hx : extname originalname = ""
    · simp only [hx]
      by_cases ht : (allowedExt mime).getD "" = "" <;> simp [jsOr, ht]
    · by_cases ht : (allowedExt mime).getD "" = "" <;> simp [jsOr, hx, ht]

/-- **C2, counterexample.** The claim "for an allow-listed declared MIME type
the produced filename carries the MIME-table extension" fails at a concrete
input: a part declaring `image/png` but originally named `"a.jpg"` is stored
as `a_<id>.jpg` — the original filename's extension takes precedence over the
MIME-table extension `.png`. -/
theorem storage_extension_counterexample :
    fileFilterOk "image/png" = true ∧
    storage_filename "a.jpg" "image/png" "0000" = "a_0000.jpg" ∧
    (allowedExt "image/png").getD "" = ".png" ∧
    extname (storage_filename "a.jpg" "image/png" "0000") ≠
      (allowedExt "image/png").getD "" := by
  decide

/-- **C2, amended.** For an allow-listed declared MIME type, the produced
filename carries the MIME-table extension whenever the original filename
itself supplies no extension; when the original filename has an extension,
that extension is used instead.  (`id` is the generated uuid: dot- and
slash-free.) -/
theorem storage_extension_follows_mime (o mime id : String)
    (hm : fileFilterOk mime = true) (hx : extname o = "")
    (hid : ∀ c ∈ id.data, (c == '.') = false ∧ (c == '/') = false) :
    extname (storage_filename o mime id) = (allowedExt mime).getD "" := by
  have hx' : extname (jsOr o "file") = "" := by
    by_cases ho : o = ""
    · rw [ho]; decide
    · rw [jsOr_of_ne ho]; exact hx
  rw [storage_filename_unfold, if_pos hx']
  obtain ⟨t, htd, htne, hprop⟩ := allowedExt_shape mime hm
  have hdata : (jsOr (sanitizeBaseName (basename2 (jsOr o "file") (extname (jsOr o "file")))) "file"
      ++ "_" ++ id ++ (allowedExt mime).getD "").data
      = ((jsOr (sanitizeBaseName (basename2 (jsOr o "file") (extname (jsOr o "file")))) "file").data
          ++ '_' :: id.data) ++ '.' :: t := by
    rw [name_data_eq, htd]
    simp
  have hnoslash : ∀ c ∈ ((jsOr (sanitizeBaseName (basename2 (jsOr o "file") (extname (jsOr o "file")))) "file").data
      ++ '_' :: id.data) ++ '.' :: t, (c == '/') = false := by
    intro c hc
    rcases List.mem_append.mp hc with h | h
    · rcases List.mem_append.mp h with h | h
      · exact baseOf_no_slash _ c h
      · rcases List.mem_cons.mp h with rfl | h
        · decide
        · exact (hid c h).2
    · rcases List.mem_cons.mp h with rfl | h
      · decide
      · exact (hprop c h).2
  have hlne : (jsOr (sanitizeBaseName (basename2 (jsOr o "file") (extname (jsOr o "file")))) "file").data
      ++ '_' :: id.data ≠ [] := by simp
  rw [extname_data, hdata, lastSegment_of_no_slash _ hnoslash,
      extnameL_concat _ _ hlne htne (fun c hc => (hprop c hc).1)]
  exact (congrArg String.mk htd).symm

/-- Witness for `storage_extension_follows_mime` at a concrete input:
an extensionless original name `"photo"` with MIME `image/png` is stored
with the `.png` extension from the MIME table. -/
theorem storage_extension_follows_mime_witness :
    fileFilterOk "image/png" = true ∧ extname "photo" = "" ∧
    (∀ c ∈ ("0000" : String).data, (c == '.') = false ∧ (c == '/') = false) ∧
    extname (storage_filename "photo" "image/png" "0000") =
      (allowedExt "image/png").getD "" :=
  ⟨by decide, by decide, by decide,
    storage_extension_follows_mime "photo" "image/png" "0000"
      (by decide) (by decide) (by decide)⟩

/-- **C1.** The authentication gate of `POST /upload` runs before any
multipart processing: with no configured token every request fails 500
(`UPLOAD_TOKEN not set`) regardless of credentials, and with a configured
token any request whose `Authorization` header is missing or differs from
`Bearer <token>` fails 401 (`Unauthorized`); in both cases the list of files
written to the storage directory is empty. -/
theorem upload_auth_gate (token : String) (auth : Option String)
    (publicBase protocol xfh hostHdr : String) (ids : List String) (parts : List Part) :
    (token = "" →
      handleUpload token auth publicBase protocol xfh hostHdr ids parts =
        (.errorResp 500 "UPLOAD_TOKEN not set", [])) ∧
    (token ≠ "" → auth ≠ some ("Bearer " ++ token) →
      handleUpload token auth publicBase protocol xfh hostHdr ids parts =
        (.errorResp 401 "Unauthorized", [])) := by
  constructor
  · intro ht
    unfold handleUpload requireBearer
    simp [ht]
  · intro ht hauth
    unfold handleUpload
    rw [requireBearer_unauthorized ht hauth]

/-- Witness for `upload_auth_gate`: a wrong bearer value is rejected with
401 and nothing is stored. -/
theorem upload_auth_gate_witness :
    ("secret" : String) ≠ "" ∧ some "Bearer nope" ≠ some ("Bearer " ++ "secret") ∧
    handleUpload "secret" (some "Bearer nope") "" "http" "" "h" [] [] =
      (.errorResp 401 "Unauthorized", []) :=
  ⟨by decide, by decide,
    (upload_auth_gate "secret" (some "Bearer nope") "" "http" "" "h" [] []).2
      (by decide) (by decide)⟩

/-- **C6.** With a valid bearer token, `DELETE /files/:name` acts only on the
base-name component of the URL parameter — a single path segment with no `/`,
so the unlink target `UPLOAD_DIR/<basename>` cannot name a file outside the
storage directory; a missing file (`ENOENT`) still yields the success body
`{deleted:true, name}` (hence deleting the same name twice succeeds both
times: the second call sees `ENOENT`), and any other filesystem error becomes
a 500 carrying the underlying message. -/
theorem delete_handler_spec (token : String) (auth : Option String) (raw : String)
    (ht : token ≠ "") (hauth : auth = some ("Bearer " ++ token)) :
    ((basename1 raw).data.all (fun c => c != '/')) = true ∧
    handleDelete token auth raw UnlinkOutcome.enoent = .deleted (basename1 raw) ∧
    handleDelete token auth raw UnlinkOutcome.ok = .deleted (basename1 raw) ∧
    (∀ m, handleDelete token auth raw (UnlinkOutcome.err m) = .errorResp 500 m) := by
  have hpass : requireBearer token auth = none :=
    (requireBearer_none_iff token auth).mpr ⟨ht, hauth⟩
  refine ⟨?_, ?_, ?_, ?_⟩
  · rw [List.all_eq_true]
    intro c hc
    simp only [basename1, lastSegment] at hc
    have hc2 : c ∈ List.takeWhile (fun c => c != '/') (stripTrailingSlashes raw.data).reverse :=
      List.mem_reverse.mp hc
    have hc3 : (c != '/') = true :=
      List.mem_takeWhile_imp (p := fun c => c != '/') hc2
    exact hc3
  · unfold handleDelete
    rw [hpass]
  · unfold handleDelete
    rw [hpass]
  · intro m
    unfold handleDelete
    rw [hpass]

/-- Witness for `delete_handler_spec`: a traversal attempt
`DELETE /files/..%2F..%2Fetc%2Fpasswd` is reduced to the base name
`passwd` and reports success though nothing existed. -/
theorem delete_handler_spec_witness :
    ("secret" : String) ≠ "" ∧ some "Bearer secret" = some ("Bearer " ++ "secret") ∧
    handleDelete "secret" (some "Bearer secret") "../../etc/passwd"
      UnlinkOutcome.enoent = .deleted "passwd" := by
  refine ⟨by decide, by decide, ?_⟩
  have h := delete_handler_spec "secret" (some "Bearer secret") "../../etc/passwd"
    (by decide) (by decide)
  rw [h.2.1]
  decide

/-- The sweep loop, characterised against the listing: a name is removed
exactly when its entry is a regular file, strictly older than `maxAgeMs`,
and its unlink did not fail; the `removed` counter counts every attempt. -/
lemma cleanLoop_spec (now maxAgeMs : Int) (uf : String → Bool) :
    ∀ entries : List DirEntry,
      (cleanLoop now maxAgeMs uf entries).1 =
        (entries.filter (fun e =>
          e.isFile && decide (maxAgeMs < now - e.mtimeMs) && !(uf e.name))).map
            (fun e => e.name) ∧
      (cleanLoop now maxAgeMs uf entries).2 =
        (entries.filter (fun e =>
          e.isFile && decide (maxAgeMs < now - e.mtimeMs))).length
  | [] => ⟨rfl, rfl⟩
  | e :: es => by
    obtain ⟨ih1, ih2⟩ := cleanLoop_spec now maxAgeMs uf es
    by_cases h : (e.isFile && decide (maxAgeMs < now - e.mtimeMs)) = true
    · by_cases hf : uf e.name = true
      · constructor
        · simp [cleanLoop, h, hf, List.filter_cons, ih1]
        · simp [cleanLoop, h, hf, List.filter_cons, ih2]
      · constructor
        · simp [cleanLoop, h, hf, List.filter_cons, ih1]
        · simp [cleanLoop, h, hf, List.filter_cons, ih2]
    · constructor
      · simp [cleanLoop, h, List.filter_cons, ih1]
      · simp [cleanLoop, h, List.filter_cons, ih2]

/-- **C7.** On one firing of the retention sweeper over the listed entries,
an entry's file is deleted iff it is a regular file (directories and
symlinks have `isFile = false` and are skipped), its age `now - mtimeMs`
STRICTLY exceeds `MAX_AGE_HOURS` in milliseconds (an entry exactly at the
threshold survives), and its own unlink did not fail; a failing unlink is
swallowed — every other entry is still processed exactly as if the failure
had not happened.  The `removed` count tallies every attempted deletion. -/
theorem sweeper_deletes_iff (maxAgeHours now : Int) (unlinkFails : String → Bool)
    (entries : List DirEntry) :
    (cleanOldFiles maxAgeHours now unlinkFails entries).1 =
      (entries.filter (fun e =>
        e.isFile && decide (maxAgeHours * 60 * 60 * 1000 < now - e.mtimeMs)
          && !(unlinkFails e.name))).map (fun e => e.name) ∧
    (cleanOldFiles maxAgeHours now unlinkFails entries).2 =
      (entries.filter (fun e =>
        e.isFile && decide (maxAgeHours * 60 * 60 * 1000 < now - e.mtimeMs))).length :=
  cleanLoop_spec now (maxAgeHours * 60 * 60 * 1000) unlinkFails entries

/-- **C8.** An authenticated upload request that respects the per-field caps
and the 500 MiB per-file size limit but contains a part whose declared MIME
type is outside {image/jpeg, image/png, image/gif, video/mp4} is rejected at
multer's per-file `fileFilter` stage with the filter error
(`Only jpg/png/gif/mp4 allowed`), failing the whole request; the offending
part is never persisted — every file written by the aborted run has an
allow-listed MIME type. -/
theorem upload_rejects_disallowed_mime (token : String) (auth : Option String)
    (publicBase protocol xfh hostHdr : String) (ids : List String) (parts : List Part)
    (ht : token ≠ "") (hauth : auth = some ("Bearer " ++ token))
    (hcF : parts.countP (fun p => decide (p.field = Field.file)) ≤ 1)
    (hcFs : parts.countP (fun p => decide (p.field = Field.files)) ≤ 20)
    (hsize : ∀ p ∈ parts, p.size ≤ fileSizeLimit)
    (hbad : ∃ p ∈ parts, fileFilterOk p.mimetype = false) :
    (handleUpload token auth publicBase protocol xfh hostHdr ids parts).1 =
      .multerError multerFilterMsg ∧
    ∀ f ∈ (handleUpload token auth publicBase protocol xfh hostHdr ids parts).2,
      fileFilterOk f.mimetype = true := by
  have hpass : requireBearer token auth = none :=
    (requireBearer_none_iff token auth).mpr ⟨ht, hauth⟩
  have herr := runMulter_invalid_err parts ids 0 0 hbad hsize (by omega) (by omega)
  have hmain : handleUpload token auth publicBase protocol xfh hostHdr ids parts =
      (.multerError multerFilterMsg, (runMulter ids 0 0 parts).1) := by
    unfold handleUpload
    rw [hpass]
    simp [herr]
  rw [hmain]
  exact ⟨rfl, fun f hf => runMulter_stored_allowed parts ids 0 0 f hf⟩

/-- Witness for `upload_rejects_disallowed_mime`: a single `file` part
declaring `application/pdf` makes the request fail at the filter and
nothing of it is stored. -/
theorem upload_rejects_disallowed_mime_witness :
    ("secret" : String) ≠ "" ∧
    some "Bearer secret" = some ("Bearer " ++ "secret") ∧
    ([(⟨Field.file, "doc.pdf", "application/pdf", 10⟩ : Part)].countP
      (fun p => decide (p.field = Field.file)) ≤ 1) ∧
    ([(⟨Field.file, "doc.pdf", "application/pdf", 10⟩ : Part)].countP
      (fun p => decide (p.field = Field.files)) ≤ 20) ∧
    (∀ p ∈ [(⟨Field.file, "doc.pdf", "application/pdf", 10⟩ : Part)],
      p.size ≤ fileSizeLimit) ∧
    (∃ p ∈ [(⟨Field.file, "doc.pdf", "application/pdf", 10⟩ : Part)],
      fileFilterOk p.mimetype = false) ∧
    ((handleUpload "secret" (some "Bearer secret") "" "http" "" "h" ["u1"]
        [⟨Field.file, "doc.pdf", "application/pdf", 10⟩]).1 =
      .multerError multerFilterMsg ∧
    ∀ f ∈ (handleUpload "secret" (some "Bearer secret") "" "http" "" "h" ["u1"]
        [⟨Field.file, "doc.pdf", "application/pdf", 10⟩]).2,
      fileFilterOk f.mimetype = true) :=
  ⟨by decide, by decide, by decide, by decide, by decide, by decide,
    upload_rejects_disallowed_mime "secret" (some "Bearer secret") "" "http" "" "h" ["u1"]
      [⟨Field.file, "doc.pdf", "application/pdf", 10⟩]
      (by decide) (by decide) (by decide) (by decide) (by decide) (by decide)⟩

/-- **C5.** For an authenticated upload whose parts all carry allow-listed
MIME types, respect the per-field caps (`file` ≤ 1, `files` ≤ 20, so at
most 21 parts) and stay within the 500 MiB per-file size limit, with fresh
uuid-shaped pairwise-distinct ids: when no part is present the request fails
400 (`No files received`); otherwise the response is `{uploaded: entries}`
with exactly one entry per part, pairwise-distinct stored filenames, and
each entry carrying the public URL built from its stored filename together
with the part's byte size and declared MIME type. -/
theorem upload_success_response (token : String) (auth : Option String)
    (publicBase protocol xfh hostHdr : String) (ids : List String) (parts : List Part)
    (ht : token ≠ "") (hauth : auth = some ("Bearer " ++ token))
    (hmime : ∀ p ∈ parts, fileFilterOk p.mimetype = true)
    (hsize : ∀ p ∈ parts, p.size ≤ fileSizeLimit)
    (hcF : parts.countP (fun p => decide (p.field = Field.file)) ≤ 1)
    (hcFs : parts.countP (fun p => decide (p.field = Field.files)) ≤ 20)
    (hlen : parts.length ≤ ids.length)
    (hgood : ∀ id ∈ ids.take parts.length, goodId id = true)
    (hnodup : (ids.take parts.length).Nodup) :
    (parts = [] →
      (handleUpload token auth publicBase protocol xfh hostHdr ids parts).1 =
        .errorResp 400 "No files received") ∧
    (parts ≠ [] →
      ∃ entries,
        (handleUpload token auth publicBase protocol xfh hostHdr ids parts).1 = .ok entries ∧
        entries.length = parts.length ∧
        (entries.map (fun e => e.filename)).Nodup ∧
        ∀ e ∈ entries,
          e.url = hostOf publicBase protocol xfh hostHdr ++ "/files/" ++
            encodeURIComponent e.filename ∧
          ∃ p ∈ parts, e.size = p.size ∧ e.mimetype = p.mimetype) := by
  have hpass : requireBearer token auth = none :=
    (requireBearer_none_iff token auth).mpr ⟨ht, hauth⟩
  have hok := runMulter_ok parts ids 0 0 hmime hsize (by omega) (by omega)
  have hmain : handleUpload token auth publicBase protocol xfh hostHdr ids parts =
      (if (((stores parts ids).filter (fun f => decide (f.field = Field.file))).map
            (mkEntry (hostOf publicBase protocol xfh hostHdr)) ++
          ((stores parts ids).filter (fun f => decide (f.field = Field.files))).map
            (mkEntry (hostOf publicBase protocol xfh hostHdr))) = []
       then (.errorResp 400 "No files received", stores parts ids)
       else (.ok ((((stores parts ids).filter (fun f => decide (f.field = Field.file))).map
            (mkEntry (hostOf publicBase protocol xfh hostHdr))) ++
          (((stores parts ids).filter (fun f => decide (f.field = Field.files))).map
            (mkEntry (hostOf publicBase protocol xfh hostHdr)))), stores parts ids)) := by
    unfold handleUpload
    rw [hpass]
    simp only [hok]
  have hperm : List.Perm ((stores parts ids).filter (fun f => decide (f.field = Field.file)) ++
      (stores parts ids).filter (fun f => decide (f.field = Field.files)))
        (stores parts ids) := by
    have hBpoint : (fun f : StoredFile => decide (f.field = Field.files)) =
        (fun f : StoredFile => !(decide (f.field = Field.file))) := by
      funext f
      cases hfld : f.field <;> decide
    rw [hBpoint]
    exact List.filter_append_perm _ _
  have hmapname : ((((stores parts ids).filter (fun f => decide (f.field = Field.file))).map
        (mkEntry (hostOf publicBase protocol xfh hostHdr)) ++
      ((stores parts ids).filter (fun f => decide (f.field = Field.files))).map
        (mkEntry (hostOf publicBase protocol xfh hostHdr))).map (fun e => e.filename)) =
      ((stores parts ids).filter (fun f => decide (f.field = Field.file)) ++
        (stores parts ids).filter (fun f => decide (f.field = Field.files))).map
          (fun f => f.filename) := by
    simp only [List.map_append, List.map_map]
    rfl
  have hnodupS := stores_filenames_nodup parts ids hmime hlen hgood hnodup
  have hnodupC : (((((stores parts ids).filter (fun f => decide (f.field = Field.file))).map
        (mkEntry (hostOf publicBase protocol xfh hostHdr)) ++
      ((stores parts ids).filter (fun f => decide (f.field = Field.files))).map
        (mkEntry (hostOf publicBase protocol xfh hostHdr))).map (fun e => e.filename))).Nodup := by
    rw [hmapname]
    exact ((hperm.map (fun f => f.filename)).nodup_iff).mpr hnodupS
  have hlenC : ((((stores parts ids).filter (fun f => decide (f.field = Field.file))).map
        (mkEntry (hostOf publicBase protocol xfh hostHdr)) ++
      ((stores parts ids).filter (fun f => decide (f.field = Field.files))).map
        (mkEntry (hostOf publicBase protocol xfh hostHdr))).length) = parts.length := by
    calc ((((stores parts ids).filter (fun f => decide (f.field = Field.file))).map
          (mkEntry (hostOf publicBase protocol xfh hostHdr)) ++
        ((stores parts ids).filter (fun f => decide (f.field = Field.files))).map
          (mkEntry (hostOf publicBase protocol xfh hostHdr))).length)
        = ((stores parts ids).filter (fun f => decide (f.field = Field.file)) ++
            (stores parts ids).filter (fun f => decide (f.field = Field.files))).length := by
          simp
      _ = (stores parts ids).length := hperm.length_eq
      _ = parts.length := stores_length parts ids
  constructor
  · rintro rfl
    rw [hmain]
    simp [stores]
  · intro hne
    have hcne : ((((stores parts ids).filter (fun f => decide (f.field = Field.file))).map
          (mkEntry (hostOf publicBase protocol xfh hostHdr)) ++
        ((stores parts ids).filter (fun f => decide (f.field = Field.files))).map
          (mkEntry (hostOf publicBase protocol xfh hostHdr)))) ≠ [] := by
      intro hceq
      apply hne
      have hzero : parts.length = 0 := by rw [← hlenC, hceq]; rfl
      exact List.length_eq_zero.mp hzero
    refine ⟨_, ?_, hlenC, hnodupC, ?_⟩
    · rw [hmain, if_neg hcne]
    · intro e he
      rcases List.mem_append.mp he with hmm | hmm
      · rcases List.mem_map.mp hmm with ⟨f, hfmem, rfl⟩
        have hfS : f ∈ stores parts ids := List.mem_of_mem_filter hfmem
        obtain ⟨q, id', hq, -, rfl⟩ := mem_stores parts ids hlen f hfS
        exact ⟨rfl, q, hq, rfl, rfl⟩
      · rcases List.mem_map.mp hmm with ⟨f, hfmem, rfl⟩
        have hfS : f ∈ stores parts ids := List.mem_of_mem_filter hfmem
        obtain ⟨q, id', hq, -, rfl⟩ := mem_stores parts ids hlen f hfS
        exact ⟨rfl, q, hq, rfl, rfl⟩


/-- Witness for `upload_success_response`: a two-part upload (one per field)
with two distinct 36-character ids yields an `ok` response with two entries
and distinct filenames. -/
theorem upload_success_response_witness :
    (("secret" : String) ≠ "") ∧
    (∃ entries,
      (handleUpload "secret" (some "Bearer secret") "" "http" "" "example.com"
          ["00000000-0000-4000-8000-000000000000", "00000000-0000-4000-8000-000000000001"]
          [⟨Field.file, "my photo.png", "image/png", 1024⟩,
           ⟨Field.files, "clip.mp4", "video/mp4", 5⟩]).1 = .ok entries ∧
      entries.length = ([⟨Field.file, "my photo.png", "image/png", 1024⟩,
           (⟨Field.files, "clip.mp4", "video/mp4", 5⟩ : Part)] : List Part).length ∧
      (entries.map (fun e => e.filename)).Nodup ∧
      ∀ e ∈ entries,
        e.url = hostOf "" "http" "" "example.com" ++ "/files/" ++
          encodeURIComponent e.filename ∧
        ∃ p ∈ [⟨Field.file, "my photo.png", "image/png", 1024⟩,
           (⟨Field.files, "clip.mp4", "video/mp4", 5⟩ : Part)],
          e.size = p.size ∧ e.mimetype = p.mimetype) :=
  ⟨by decide,
    (upload_success_response "secret" (some "Bearer secret") "" "http" "" "example.com"
      ["00000000-0000-4000-8000-000000000000", "00000000-0000-4000-8000-000000000001"]
      [⟨Field.file, "my photo.png", "image/png", 1024⟩,
       ⟨Field.files, "clip.mp4", "video/mp4", 5⟩]
      (by decide) (by decide) (by decide) (by decide) (by decide) (by decide)
      (by decide) (by decide) (by decide)).2 (by decide)⟩
